import Mathlib

/-!
# Verification of `DiondoDataReader`

A shallow embedding, in Lean 4, of `src/readers/DiondoDataReader.py`: a reader
for Diondo scanner XML metadata and RAW projection files.

Modelling conventions:
* Machine floats (`float`/`float64` in numpy) are modelled as exact rationals
  `ℚ`; `uint16` samples are modelled as `ℕ` (the `astype("float32")` cast at
  the end of `read`/`read_centre_slice` is exact on `uint16` values, so sample
  values are tracked as the integers they are).
* A RAW file is its filename together with the sequence of `uint16` elements
  it contains; byte offsets that are always a multiple of the element size are
  expressed in element units (`f.seek(k * itemsize)` = `drop k` elements).
* Fallible operations return `Option` / `Except Err`; Python list indexing
  (which wraps negative indices) is `pyGet`; numpy fancy indexing of an array
  by an index array is `omap (pyGet _)` (it raises when any index is out of
  the wrapped range).
* The `joblib.Parallel(backend='threading')` dispatch of the `fread=True`
  branch is modelled by an explicit completion order `order : List ℕ` of the
  submitted tasks; joblib places each task's result in its submission slot,
  which `readPar` reproduces by looking each submission index up among the
  completed tasks.
-/

set_option autoImplicit false

deriving instance DecidableEq for Except

namespace Diondo

/-- The scalar fields `read_metadata` extracts from the XML file. -/
structure ScanMetadata where
  source_to_detector : ℚ
  source_to_object : ℚ
  object_to_detector : ℚ
  num_projections : ℕ
  num_pixels_h : ℕ
  num_pixels_v : ℕ
  pixel_size_h : ℚ
  pixel_size_v : ℚ
deriving DecidableEq, Repr

/-- The parsed XML document: the `Geometrie` and `Recon` child elements the
reader consults.  `xml.etree` itself is a black-box external library; a
successfully parsed file is abstracted to the values of those elements. -/
structure XmlDoc where
  sourceDetectorDist : ℚ
  sourceObjectDist : ℚ
  objectDetectorDist : ℚ
  projectionCount : ℕ
  projectionDimX : ℕ
  projectionDimY : ℕ
  projectionPixelSizeX : ℚ
  projectionPixelSizeY : ℚ
deriving DecidableEq, Repr

/-- Error conditions surfaced by the reader. -/
inductive Err where
  /-- Python `FileNotFoundError`. -/
  | fileNotFound
  /-- Python `IndexError` (list or numpy indexing out of range). -/
  | indexError
  /-- Python `ValueError` (reshape / broadcast failure). -/
  | valueError
deriving DecidableEq, Repr

/-- Lexicographic comparison of filenames, each a sequence of code points:
exactly how Python's `sorted` compares the `str` paths returned by
`glob.glob`. -/
def lexLe : List ℕ → List ℕ → Bool
  | [], _ => true
  | _ :: _, [] => false
  | a :: as, b :: bs =>
      if a < b then true else if b < a then false else lexLe as bs

/-- A RAW projection file: its name (a sequence of code points, compared
lexicographically) and its `uint16` element sequence. -/
structure RawFile where
  name : List ℕ
  data : List ℕ
deriving DecidableEq, Repr

/-- `read_metadata` (lines 58-79): `os.path.isfile` failing raises
`FileNotFoundError("XML file not found.")`; otherwise the XML is parsed and
the eight fields are copied.  The filesystem is a map from paths to parsed
documents (`none` = no file at that path). -/
def read_metadata (fs : String → Option XmlDoc) (xml_file : String) :
    Except Err ScanMetadata :=
  match fs xml_file with
  | Option.none => .error .fileNotFound
  | Option.some doc =>
      .ok { source_to_detector := doc.sourceDetectorDist
            source_to_object := doc.sourceObjectDist
            object_to_detector := doc.objectDetectorDist
            num_projections := doc.projectionCount
            num_pixels_h := doc.projectionDimX
            num_pixels_v := doc.projectionDimY
            pixel_size_h := doc.projectionPixelSizeX
            pixel_size_v := doc.projectionPixelSizeY }

/-- The angle sequence of `_setup_geometry` (line 94):
`np.linspace(-90, 270, num_projections, endpoint=False)`, i.e. `n` samples
starting at `-90` with step `(270 - (-90)) / n = 360 / n`. -/
def angles (n : ℕ) : List ℚ :=
  (List.range n).map (fun i : ℕ => -90 + (i : ℚ) * (360 / (n : ℚ)))

/-- `np.round` / Python `round`: round half to even (banker's rounding). -/
def npRound (q : ℚ) : ℤ :=
  let f := ⌊q⌋
  let frac := q - f
  if frac < 1 / 2 then f
  else if 1 / 2 < frac then f + 1
  else if f % 2 = 0 then f else f + 1

/-- The selection argument of `set_angles` when it is not `None`: a tuple
(turned into a `slice` by `slice(*selection)`; the claims exercise the
2-tuple `(start, stop)` form, whose slice has step 1), a single integer, or a
sequence interpreted as angle values in degrees. -/
inductive Selection where
  /-- A 2-tuple `(start, stop)`, i.e. `slice(start, stop)` with step 1. -/
  | tuple (start stop : ℤ)
  /-- A single (possibly negative) integer index. -/
  | single (i : ℤ)
  /-- A sequence of angle values in degrees. -/
  | angleList (vals : List ℚ)
deriving DecidableEq, Repr

/-- Python slice endpoint normalisation for a positive step: a negative
endpoint has the length added, then the result is clamped to `[0, n]`. -/
def slcNorm (n : ℕ) (v : ℤ) : ℕ :=
  (min (n : ℤ) (max 0 (if v < 0 then v + n else v))).toNat

/-- `np.arange(n, dtype=int)[slice(start, stop)]` (step 1). -/
def pySliceIdx (n : ℕ) (start stop : ℤ) : List ℤ :=
  (List.range' (slcNorm n start) (slcNorm n stop - slcNorm n start)).map
    Int.ofNat

/-- The body of `set_angles` (lines 151-165) for a non-`None` selection:
a tuple becomes a slice over `arange(num_projections)`; an integer becomes the
one-element array `[int(selection)]`; any other sequence is treated as angle
values and mapped through `np.round(angles / 360.0 * num_projections)`. -/
def resolve (num_projections : ℕ) : Selection → List ℤ
  | .tuple start stop => pySliceIdx num_projections start stop
  | .single i => [i]
  | .angleList vals =>
      vals.map (fun a => npRound (a / 360 * (num_projections : ℚ)))

/-- `set_angles` (lines 145-165): `None` is stored and returned as `None`;
everything else resolves to an index array. -/
def set_angles (num_projections : ℕ) (selection : Option Selection) :
    Option (List ℤ) :=
  selection.map (resolve num_projections)

/-- `Option`-valued map over a list: `some` of the image when `f` succeeds on
every element, `none` as soon as it fails on one.  This is how a Python list
comprehension that can raise, and numpy fancy indexing, are modelled. -/
def omap {α β : Type} (f : α → Option β) : List α → Option (List β)
  | [] => Option.some []
  | x :: xs =>
      match f x, omap f xs with
      | Option.some y, Option.some ys => Option.some (y :: ys)
      | _, _ => Option.none

/-- Python list indexing `l[i]`: a negative `i` has the length added first;
an index outside `[-len, len)` raises `IndexError` (`none`). -/
def pyGet {α : Type} (l : List α) (i : ℤ) : Option α :=
  if 0 ≤ i then l.get? i.toNat
  else if -(l.length : ℤ) ≤ i then l.get? (i + l.length).toNat
  else Option.none

/-- Insert a file into a list sorted by name (`sorted` builds the sorted
order; filenames within one directory are distinct, so any correct sort
produces the sequence `sorted(...)` returns). -/
def insertFile (f : RawFile) : List RawFile → List RawFile
  | [] => [f]
  | g :: gs =>
      if lexLe f.name g.name then f :: g :: gs else g :: insertFile f gs

/-- `sorted(glob.glob(os.path.join(projection_path, "*.raw")))`: the RAW
files of the directory in lexicographic filename order. -/
def sortFiles (dir : List RawFile) : List RawFile :=
  dir.foldr insertFile []

/-- The enumeration of `read` (lines 108-109): sort lexicographically, drop
the last entry. -/
def rawFileSet_read (dir : List RawFile) : List RawFile :=
  (sortFiles dir).dropLast

/-- The enumeration of `read_centre_slice` (lines 174-175): sort
lexicographically, drop the last entry. -/
def rawFileSet_centre (dir : List RawFile) : List RawFile :=
  (sortFiles dir).dropLast

/-- Split a flat element list into `height` rows of `width` elements:
the `reshape((height, width))` layout, row-major. -/
def chunkRows (width : ℕ) : ℕ → List ℕ → List (List ℕ)
  | 0, _ => []
  | h + 1, data => data.take width :: chunkRows width h (data.drop width)

/-- `_read_single_raw_file` (lines 101-104): `np.fromfile` reads the whole
file; `reshape((height, width))` succeeds exactly when the element count is
`height * width`, and raises `ValueError` otherwise. -/
def read_single_raw_file (height width : ℕ) (f : RawFile) :
    Option (List (List ℕ)) :=
  if f.data.length = height * width then
    Option.some (chunkRows width height f.data)
  else Option.none

/-- The sequential branch of `read` (lines 131-137): each selected file is
read in order into the corresponding slot of the output. -/
def readSeq (height width : ℕ) (files : List RawFile) :
    Option (List (List (List ℕ))) :=
  omap (read_single_raw_file height width) files

/-- The parallel branch of `read` (lines 122-130): one task per selected
file, in submission order; `order` is the order in which the worker threads
complete the tasks.  joblib's threading backend stores each task's result in
its submission slot and returns the slots in submission order, which the
`omap` over the submission indices reproduces.  The collected list is then
stacked by `np.stack(..., axis=0)` (line 130), which raises
`ValueError: need at least one array to stack` when no task was submitted,
i.e. when the selected file list is empty. -/
def readPar (height width : ℕ) (files : List RawFile) (order : List ℕ) :
    Option (List (List (List ℕ))) :=
  let completed :=
    order.map (fun i =>
      (i, (files.get? i).bind (read_single_raw_file height width)))
  match
    omap (fun i => (completed.find? (fun p => p.1 == i)).bind (fun p => p.2))
      (List.range files.length) with
  | Option.none => Option.none
  | Option.some results =>
      match results with
      | [] => Option.none
      | _ :: _ => Option.some results

/-- The index array of `read` (lines 114-118): `None` selects every
remaining file in order (`np.arange(len(raw_files))`); otherwise the
selection is resolved by `set_angles` against `num_projections`. -/
def resolvedIndices (num_projections numRaw : ℕ) (sel : Option Selection) :
    List ℤ :=
  match sel with
  | Option.none => (List.range numRaw).map Int.ofNat
  | Option.some s => resolve num_projections s

/-- `read` (lines 106-143).  Steps, in source order: enumerate and drop the
last file; raise `FileNotFoundError` if none remain; resolve the selection;
build `selected_files` by Python list indexing (line 120, where an index
outside the wrapped range raises `IndexError`); read the frames sequentially
or in parallel; subset the full geometry's angles by numpy fancy indexing
(line 141); return the float32 data paired with the subset angle list. -/
def read (md : ScanMetadata) (dir : List RawFile) (sel : Option Selection)
    (fread : Bool) (order : List ℕ) :
    Except Err (List (List (List ℕ)) × List ℚ) :=
  let raw_files := rawFileSet_read dir
  if raw_files.length = 0 then .error .fileNotFound
  else
    let indices := resolvedIndices md.num_projections raw_files.length sel
    match omap (pyGet raw_files) indices with
    | Option.none => .error .indexError
    | Option.some selected_files =>
        match
          (if fread then readPar md.num_pixels_v md.num_pixels_h
                           selected_files order
           else readSeq md.num_pixels_v md.num_pixels_h selected_files) with
        | Option.none => .error .valueError
        | Option.some projection_data =>
            match omap (pyGet (angles md.num_projections)) indices with
            | Option.none => .error .indexError
            | Option.some sub_angles => .ok (projection_data, sub_angles)

/-- The scanline `read_centre_slice` extracts from one file (lines 184-186):
seek to byte offset `central_index * num_pixels_h * itemsize` — i.e. skip
`(num_pixels_v / 2) * num_pixels_h` elements — then
`np.fromfile(count=num_pixels_h)`, which returns at most `num_pixels_h`
elements and, near end of file, however many remain. -/
def fileRow (num_pixels_h num_pixels_v : ℕ) (f : RawFile) : List ℕ :=
  ((f.data.drop ((num_pixels_v / 2) * num_pixels_h)).take num_pixels_h)

/-- The numpy row assignment `central_slices[i] = row`: raises `IndexError`
when `i` is out of range and `ValueError` when the row does not broadcast to
`width` elements (a 1-element row broadcasts). -/
def assignRow (buf : List (List ℕ)) (i : ℕ) (row : List ℕ) (width : ℕ) :
    Except Err (List (List ℕ)) :=
  if i < buf.length then
    if row.length = width then .ok (buf.set i row)
    else
      match row with
      | [x] => .ok (buf.set i (List.replicate width x))
      | _ => .error .valueError
  else .error .indexError

/-- The loop of `read_centre_slice` (lines 183-186): row `i` of the buffer is
overwritten with the scanline of file `i`. -/
def fillRows (num_pixels_h num_pixels_v : ℕ) (buf : List (List ℕ)) (i : ℕ) :
    List RawFile → Except Err (List (List ℕ))
  | [] => .ok buf
  | f :: fs =>
      match assignRow buf i (fileRow num_pixels_h num_pixels_v f)
              num_pixels_h with
      | .ok buf2 => fillRows num_pixels_h num_pixels_v buf2 (i + 1) fs
      | .error e => .error e

/-- `read_centre_slice` (lines 168-188): the output is a zero-initialised
`num_projections × num_pixels_h` buffer (`np.zeros((geom_shape[0],
geom_shape[2]))`, where `full_geometry.shape = (num_projections,
num_pixels_v, num_pixels_h)`); each enumerated file fills one row; there is
no emptiness check on the enumerated file set. -/
def read_centre_slice (md : ScanMetadata) (dir : List RawFile) :
    Except Err (List (List ℕ)) :=
  let raw_files := rawFileSet_centre dir
  let central_slices :=
    List.replicate md.num_projections (List.replicate md.num_pixels_h 0)
  fillRows md.num_pixels_h md.num_pixels_v central_slices 0 raw_files

/-! ### Concrete fixtures used by witnesses and counterexamples -/

/-- A small well-formed metadata record: 4 projections, 1×1 panel. -/
def md₀ : ScanMetadata := ⟨100, 50, 50, 4, 1, 1, 1, 1⟩

/-- Three 1-element RAW files, deliberately listed out of name order
(names are the code-point sequences of "c", "a", "b"). -/
def dir₀ : List RawFile := [⟨[99], [7]⟩, ⟨[97], [5]⟩, ⟨[98], [6]⟩]

/-- Metadata with a 2×2 panel and 4 projections. -/
def md₁ : ScanMetadata := ⟨100, 50, 50, 4, 2, 2, 1, 1⟩

/-- Three 2×2 RAW files (4 elements each), in name order. -/
def dir₁ : List RawFile :=
  [⟨[97], [1, 2, 3, 4]⟩, ⟨[98], [5, 6, 7, 8]⟩, ⟨[99], [9, 10, 11, 12]⟩]

/-! ### Helper lemmas -/

theorem omap_length {α β : Type} {f : α → Option β} :
    ∀ {l : List α} {ys : List β}, omap f l = Option.some ys →
      ys.length = l.length
  | [], _, h => by cases h; rfl
  | x :: xs, ys, h => by
      unfold omap at h
      cases hx : f x with
      | none => rw [hx] at h; exact absurd h (by simp)
      | some y =>
        cases hxs : omap f xs with
        | none => rw [hx, hxs] at h; exact absurd h (by simp)
        | some zs =>
          rw [hx, hxs] at h
          cases h
          simp [omap_length hxs]

theorem omap_congr {α β : Type} {f f' : α → Option β} :
    ∀ {l : List α}, (∀ x ∈ l, f x = f' x) → omap f l = omap f' l
  | [], _ => rfl
  | x :: xs, h => by
      unfold omap
      rw [h x (by simp), omap_congr (fun y hy => h y (by simp [hy]))]

theorem omap_eq_map {α β : Type} {f : α → Option β} {g : α → β} :
    ∀ {l : List α}, (∀ x ∈ l, f x = Option.some (g x)) →
      omap f l = Option.some (l.map g)
  | [], _ => rfl
  | x :: xs, h => by
      unfold omap
      rw [h x (by simp), omap_eq_map (fun y hy => h y (by simp [hy]))]
      rfl

theorem omap_eq_none {α β : Type} {f : α → Option β} {x : α} :
    ∀ {l : List α}, x ∈ l → f x = Option.none → omap f l = Option.none
  | [], hx, _ => absurd hx (List.not_mem_nil x)
  | y :: ys, hx, hfx => by
      unfold omap
      rcases List.mem_cons.1 hx with h | h
      · subst h; rw [hfx]
      · rw [omap_eq_none h hfx]
        cases f y <;> rfl

theorem omap_map {α β γ : Type} (f : β → Option γ) (g : α → β) :
    ∀ (l : List α), omap f (l.map g) = omap (fun x => f (g x)) l
  | [] => rfl
  | x :: xs => by
      simp only [List.map_cons]
      unfold omap
      rw [omap_map f g xs]

theorem omap_cons {α β : Type} (f : α → Option β) (x : α) (xs : List α) :
    omap f (x :: xs) =
      match f x, omap f xs with
      | Option.some y, Option.some ys => Option.some (y :: ys)
      | _, _ => Option.none := rfl

theorem omap_isSome {α β : Type} {f : α → Option β} :
    ∀ {l : List α}, (∀ x ∈ l, f x ≠ Option.none) →
      ∃ ys, omap f l = Option.some ys
  | [], _ => ⟨[], rfl⟩
  | x :: xs, h => by
      obtain ⟨ys, hys⟩ :=
        omap_isSome (fun y hy => h y (List.mem_cons_of_mem x hy))
      cases hfx : f x with
      | none => exact absurd hfx (h x (List.mem_cons_self x xs))
      | some y => exact ⟨y :: ys, by rw [omap_cons, hfx, hys]⟩

theorem omap_get?_range {α : Type} :
    ∀ (l : List α),
      omap (fun i => l.get? i) (List.range l.length) = Option.some l
  | [] => rfl
  | x :: xs => by
      rw [List.length_cons, List.range_succ_eq_map, omap_cons, omap_map]
      have h2 : omap (fun i => (x :: xs).get? (Nat.succ i))
          (List.range xs.length) = Option.some xs :=
        (omap_congr (fun i _ => rfl)).trans (omap_get?_range xs)
      rw [h2]
      rfl

theorem omap_get_bind_range {α β : Type} (f : α → Option β) :
    ∀ (l : List α),
      omap (fun i => (l.get? i).bind f) (List.range l.length) = omap f l
  | [] => rfl
  | x :: xs => by
      rw [List.length_cons, List.range_succ_eq_map, omap_cons, omap_map]
      have h2 : omap (fun i => ((x :: xs).get? (Nat.succ i)).bind f)
          (List.range xs.length) = omap f xs :=
        (omap_congr (fun i _ => rfl)).trans (omap_get_bind_range f xs)
      rw [h2]
      rfl

theorem find?_map_key {β : Type} (g : ℕ → β) (i : ℕ) :
    ∀ (order : List ℕ), i ∈ order →
      (order.map (fun j => (j, g j))).find? (fun p => p.1 == i) =
        Option.some (i, g i)
  | [], h => absurd h (List.not_mem_nil i)
  | j :: order, h => by
      rw [List.map_cons, List.find?_cons]
      by_cases hji : j = i
      · subst hji
        simp
      · have hi : i ∈ order := by
          rcases List.mem_cons.1 h with h' | h'
          · exact absurd h'.symm hji
          · exact h'
        have hcond : ((j, g j).1 == i) = false := by
          simp [hji]
        rw [hcond]
        exact find?_map_key g i order hi

theorem pyGet_ofNat {α : Type} (l : List α) (i : ℕ) :
    pyGet l (Int.ofNat i) = l.get? i := by
  simp [pyGet]

theorem readPar_length {v h : ℕ} {files : List RawFile} {order : List ℕ}
    {ys : List (List (List ℕ))}
    (hpar : readPar v h files order = Option.some ys) :
    ys.length = files.length := by
  unfold readPar at hpar
  dsimp only at hpar
  cases hg : omap (fun i =>
      ((order.map (fun j =>
          (j, (files.get? j).bind (read_single_raw_file v h)))).find?
        (fun p => p.1 == i)).bind (fun p => p.2))
      (List.range files.length) with
  | none => rw [hg] at hpar; cases hpar
  | some results =>
      rw [hg] at hpar
      cases results with
      | nil => cases hpar
      | cons r rs =>
          cases hpar
          rw [omap_length hg, List.length_range]

theorem pyGet_none {α : Type} (l : List α) (i : ℤ)
    (h : i < -(l.length : ℤ) ∨ (l.length : ℤ) ≤ i) : pyGet l i = Option.none := by
  rcases h with h | h
  · have h0 : ¬ 0 ≤ i := by omega
    have h1 : ¬ -(l.length : ℤ) ≤ i := by omega
    simp [pyGet, h0, h1]
  · have h0 : 0 ≤ i := by omega
    simp only [pyGet, if_pos h0]
    exact List.get?_eq_none.2 (by omega)

theorem lexLe_total : ∀ (a b : List ℕ), lexLe a b = true ∨ lexLe b a = true
  | [], _ => Or.inl rfl
  | _ :: _, [] => Or.inr rfl
  | a :: as, b :: bs => by
      unfold lexLe
      rcases Nat.lt_trichotomy a b with h | h | h
      · left; rw [if_pos h]
      · subst h
        simp only [if_neg (Nat.lt_irrefl a)]
        exact lexLe_total as bs
      · right; rw [if_pos h]

theorem lexLe_trans :
    ∀ {a b c : List ℕ}, lexLe a b = true → lexLe b c = true →
      lexLe a c = true
  | [], _, _, _, _ => rfl
  | _ :: _, [], _, h, _ => by cases h
  | _ :: _, _ :: _, [], _, h => by cases h
  | x :: xs, y :: ys, z :: zs, h1, h2 => by
      unfold lexLe at h1 h2 ⊢
      rcases Nat.lt_trichotomy x y with hxy | hxy | hxy
      · rcases Nat.lt_trichotomy y z with hyz | hyz | hyz
        · rw [if_pos (Nat.lt_trans hxy hyz)]
        · subst hyz; rw [if_pos hxy]
        · rw [if_neg (Nat.lt_asymm hyz), if_pos hyz] at h2
          cases h2
      · subst hxy
        rw [if_neg (Nat.lt_irrefl x), if_neg (Nat.lt_irrefl x)] at h1
        rcases Nat.lt_trichotomy x z with hxz | hxz | hxz
        · rw [if_pos hxz]
        · subst hxz
          rw [if_neg (Nat.lt_irrefl x), if_neg (Nat.lt_irrefl x)] at h2
          rw [if_neg (Nat.lt_irrefl x), if_neg (Nat.lt_irrefl x)]
          exact lexLe_trans h1 h2
        · rw [if_neg (Nat.lt_asymm hxz), if_pos hxz] at h2
          cases h2
      · rw [if_neg (Nat.lt_asymm hxy), if_pos hxy] at h1
        cases h1

theorem insertFile_perm (f : RawFile) :
    ∀ (l : List RawFile), (insertFile f l).Perm (f :: l)
  | [] => List.Perm.refl _
  | g :: gs => by
      unfold insertFile
      by_cases h : lexLe f.name g.name = true
      · rw [if_pos h]
      · rw [if_neg h]
        exact ((insertFile_perm f gs).cons g).trans (List.Perm.swap f g gs)

theorem sortFiles_perm (dir : List RawFile) : (sortFiles dir).Perm dir := by
  induction dir with
  | nil => exact List.Perm.refl _
  | cons f fs ih =>
      exact (insertFile_perm f (sortFiles fs)).trans (ih.cons f)

theorem length_sortFiles (dir : List RawFile) :
    (sortFiles dir).length = dir.length :=
  (sortFiles_perm dir).length_eq

theorem insertFile_sorted (f : RawFile) :
    ∀ {l : List RawFile},
      l.Pairwise (fun a b : RawFile => lexLe a.name b.name = true) →
      (insertFile f l).Pairwise
        (fun a b : RawFile => lexLe a.name b.name = true)
  | [], _ => List.pairwise_singleton _ f
  | g :: gs, h => by
      unfold insertFile
      rcases List.pairwise_cons.1 h with ⟨hg, hgs⟩
      by_cases hle : lexLe f.name g.name = true
      · rw [if_pos hle]
        exact List.pairwise_cons.2
          ⟨fun b hb => by
            rcases List.mem_cons.1 hb with rfl | hb
            · exact hle
            · exact lexLe_trans hle (hg b hb), h⟩
      · rw [if_neg hle]
        refine List.pairwise_cons.2 ⟨fun b hb => ?_, insertFile_sorted f hgs⟩
        rcases List.mem_cons.1 ((insertFile_perm f gs).mem_iff.1 hb)
          with hbf | hb
        · rw [hbf]
          exact (lexLe_total f.name g.name).resolve_left hle
        · exact hg b hb

theorem sortFiles_sorted (dir : List RawFile) :
    (sortFiles dir).Pairwise
      (fun a b : RawFile => lexLe a.name b.name = true) := by
  induction dir with
  | nil => exact List.Pairwise.nil
  | cons f fs ih => exact insertFile_sorted f ih

theorem length_fileRow {h v : ℕ} {f : RawFile}
    (hs : (v / 2) * h + h ≤ f.data.length) : (fileRow h v f).length = h := by
  simp only [fileRow, List.length_take, List.length_drop]
  omega

theorem fillRows_length {h v : ℕ} :
    ∀ {fs : List RawFile} {buf buf' : List (List ℕ)} {i : ℕ},
      fillRows h v buf i fs = .ok buf' → buf'.length = buf.length
  | [], _, _, _, hok => by cases hok; rfl
  | f :: fs, buf, buf', i, hok => by
      unfold fillRows at hok
      cases ha : assignRow buf i (fileRow h v f) h with
      | error e => rw [ha] at hok; cases hok
      | ok buf2 =>
          rw [ha] at hok
          have h2 : buf2.length = buf.length := by
            unfold assignRow at ha
            split_ifs at ha with h1 h2
            · cases ha; exact List.length_set buf i _
            · split at ha
              · cases ha; exact List.length_set buf i _
              · cases ha
          rw [fillRows_length hok, h2]

theorem fillRows_ok (h v : ℕ) :
    ∀ (fs : List RawFile) (buf : List (List ℕ)) (i : ℕ),
      (∀ f ∈ fs, (v / 2) * h + h ≤ f.data.length) →
      i + fs.length ≤ buf.length →
      ∃ buf', fillRows h v buf i fs = .ok buf' ∧
        buf'.length = buf.length ∧
        (∀ j, j < i ∨ i + fs.length ≤ j → buf'.get? j = buf.get? j) ∧
        (∀ k (hk : k < fs.length),
          buf'.get? (i + k) = Option.some (fileRow h v (fs.get ⟨k, hk⟩)))
  | [], buf, i, _, _ =>
      ⟨buf, rfl, rfl, fun _ _ => rfl, fun k hk => absurd hk (Nat.not_lt_zero k)⟩
  | f :: fs, buf, i, hsize, hlen => by
      have hrow : (fileRow h v f).length = h :=
        length_fileRow (hsize f (List.mem_cons_self f fs))
      have hib : i < buf.length := by
        have := List.length_cons f fs ▸ hlen
        omega
      have ha : assignRow buf i (fileRow h v f) h = .ok (buf.set i (fileRow h v f)) := by
        unfold assignRow
        rw [if_pos hib, if_pos hrow]
      obtain ⟨buf', hfill, hblen, huntouched, hrows⟩ :=
        fillRows_ok h v fs (buf.set i (fileRow h v f)) (i + 1)
          (fun g hg => hsize g (List.mem_cons_of_mem f hg))
          (by rw [List.length_set]; have := List.length_cons f fs ▸ hlen; omega)
      refine ⟨buf', ?_, ?_, ?_, ?_⟩
      · unfold fillRows
        rw [ha]
        exact hfill
      · rw [hblen, List.length_set]
      · intro j hj
        have hji : j ≠ i := by rcases hj with hj | hj <;> simp at hj ⊢ <;> omega
        have h1 : buf'.get? j = (buf.set i (fileRow h v f)).get? j := by
          apply huntouched
          rcases hj with hj | hj
          · left; omega
          · right; simp at hj; omega
        rw [h1, List.get?_set_ne _ _ (Ne.symm hji)]
      · intro k hk
        cases k with
        | zero =>
            have h1 : buf'.get? (i + 0) = (buf.set i (fileRow h v f)).get? i := by
              have := huntouched i (Or.inl (Nat.lt_succ_self i))
              simpa using this
            rw [h1, List.get?_set_eq_of_lt _ hib]
            rfl
        | succ k' =>
            have hk' : k' < fs.length := by simp at hk; omega
            have h1 := hrows k' hk'
            have h2 : i + 1 + k' = i + (k' + 1) := by omega
            rw [h2] at h1
            rw [h1]
            rfl

theorem length_angles (n : ℕ) : (angles n).length = n := by
  unfold angles
  rw [List.length_map, List.length_range]

theorem angles_get (n i : ℕ) (hi : i < (angles n).length) :
    (angles n).get ⟨i, hi⟩ = -90 + i * (360 / (n : ℚ)) := by
  simp only [angles, List.get_eq_getElem, List.getElem_map, List.getElem_range]

/-! ### Claim theorems -/

/-- C2: for all well-formed metadata (a positive projection count), the
generated angle sequence has length `num_projections`, every angle lies in
the half-open interval `[-90, 270)` (right endpoint excluded), and
consecutive angles are spaced by exactly `360 / num_projections` degrees. -/
theorem angles_length_range_spacing (n : ℕ) (hn : 0 < n) :
    (angles n).length = n ∧
    (∀ i (hi : i < (angles n).length),
      -90 ≤ (angles n).get ⟨i, hi⟩ ∧ (angles n).get ⟨i, hi⟩ < 270) ∧
    (∀ i (hi : i + 1 < (angles n).length),
      (angles n).get ⟨i + 1, hi⟩ -
        (angles n).get ⟨i, Nat.lt_of_succ_lt hi⟩ = 360 / (n : ℚ)) := by
  have hn' : (0 : ℚ) < n := by exact_mod_cast hn
  refine ⟨length_angles n, fun i hi => ?_, fun i hi => ?_⟩
  · rw [angles_get]
    have hi' : i < n := by rwa [length_angles] at hi
    have hlt : (i : ℚ) < n := by exact_mod_cast hi'
    constructor
    · have h0 : 0 ≤ (i : ℚ) * (360 / n) := by positivity
      linarith
    · have h1 : (i : ℚ) * (360 / n) < n * (360 / n) :=
        mul_lt_mul_of_pos_right hlt (by positivity)
      have h2 : (n : ℚ) * (360 / n) = 360 := by field_simp
      linarith
  · rw [angles_get, angles_get]
    push_cast
    ring

/-- Witness for C2 at `num_projections = 4`. -/
theorem angles_length_range_spacing_witness :
    (angles 4).length = 4 ∧ angles 4 = [-90, 0, 90, 180] :=
  ⟨(angles_length_range_spacing 4 (by decide)).1,
   by norm_num [angles, List.range_succ]⟩

/-- C3: selection resolution — the tuple `(2, 10)` resolves to indices
`2..9`; the single integer `5` resolves to the literal index set `{5}`
(independent of `num_projections`); an angle list resolves element-wise via
`round(angle / 360 * num_projections)`, so `[0.0, 90.0]` against
`num_projections = 360` resolves to `{0, 90}`. -/
theorem set_angles_resolution_examples (n : ℕ) (hn : 10 ≤ n) :
    resolve n (.tuple 2 10) = [2, 3, 4, 5, 6, 7, 8, 9] ∧
    (∀ m : ℕ, resolve m (.single 5) = [5]) ∧
    resolve 360 (.angleList [0, 90]) = [0, 90] ∧
    (∀ (m : ℕ) (vals : List ℚ),
      resolve m (.angleList vals) =
        vals.map (fun a => npRound (a / 360 * (m : ℚ)))) := by
  refine ⟨?_, fun m => rfl, by norm_num [resolve, npRound], fun m vals => rfl⟩
  have h2 : slcNorm n 2 = 2 := by simp only [slcNorm]; omega
  have h10 : slcNorm n 10 = 10 := by simp only [slcNorm]; omega
  simp only [resolve, pySliceIdx]
  rw [h2, h10]
  decide

/-- Witness for C3 at `num_projections = 12`. -/
theorem set_angles_resolution_examples_witness :
    resolve 12 (.tuple 2 10) = [2, 3, 4, 5, 6, 7, 8, 9] ∧
    resolve 12 (.single 5) = [5] ∧
    resolve 360 (.angleList [0, 90]) = [0, 90] :=
  ⟨(set_angles_resolution_examples 12 (by decide)).1,
   (set_angles_resolution_examples 12 (by decide)).2.1 12,
   (set_angles_resolution_examples 12 (by decide)).2.2.1⟩

/-- C8: `read_metadata` on a non-existing XML path fails with exactly
`FileNotFoundError`, and `read` on a projection directory with zero RAW
files remaining after dropping the last entry fails with exactly
`FileNotFoundError` — no other error kind. -/
theorem missing_file_errors :
    (∀ (fs : String → Option XmlDoc) (xml_file : String),
      fs xml_file = Option.none →
      read_metadata fs xml_file = .error .fileNotFound) ∧
    (∀ (md : ScanMetadata) (dir : List RawFile) (sel : Option Selection)
       (fread : Bool) (order : List ℕ),
      (rawFileSet_read dir).length = 0 →
      read md dir sel fread order = .error .fileNotFound) := by
  constructor
  · intro fs xml h
    unfold read_metadata
    rw [h]
  · intro md dir sel fread order h
    simp only [read]
    rw [if_pos h]

/-- Witness for C8: a filesystem without the XML file, and an empty
projection directory. -/
theorem missing_file_errors_witness :
    read_metadata (fun _ => Option.none) "scan.xml" = .error .fileNotFound ∧
    read md₀ [] Option.none false [] = .error .fileNotFound :=
  ⟨missing_file_errors.1 _ "scan.xml" rfl,
   missing_file_errors.2 md₀ [] Option.none false [] (by decide)⟩

/-- C6 counterexample: the resolved index `-1` lies outside
`[0, number of remaining files) = [0, 2)`, yet `read` performs Python list
indexing, which wraps `-1` to the last remaining file, so a result *is*
returned (the frame `[[6]]` of the second remaining file) and no indexing
failure occurs. -/
theorem read_negative_index_counterexample :
    ((-1 : ℤ) < 0 ∨ (2 : ℤ) ≤ -1) ∧
    (rawFileSet_read dir₀).length = 2 ∧
    (read md₀ dir₀ (Option.some (.single (-1))) false []).map Prod.fst =
      Except.ok [[[6]]] := by
  decide

/-- C6 (amended): no bounds-checking happens at resolution time, and a
resolved index outside the *wrapped* Python range `[-len, len)` (with
`len` the number of remaining files) makes `read` fail with `IndexError`
at read time, returning no result; indices in `[-len, -1]` instead wrap to
`len + i` and do return a result. -/
theorem read_out_of_range_index_error (md : ScanMetadata)
    (dir : List RawFile) (sel : Selection) (fread : Bool) (order : List ℕ)
    (i : ℤ) (hne : ¬ (rawFileSet_read dir).length = 0)
    (hi : i ∈ resolve md.num_projections sel)
    (hout : i < -((rawFileSet_read dir).length : ℤ) ∨
            ((rawFileSet_read dir).length : ℤ) ≤ i) :
    read md dir (Option.some sel) fread order = .error .indexError := by
  simp only [read]
  rw [if_neg hne]
  have hnone : omap (pyGet (rawFileSet_read dir))
      (resolvedIndices md.num_projections (rawFileSet_read dir).length
        (Option.some sel)) = Option.none :=
    omap_eq_none (by simpa [resolvedIndices] using hi)
      (pyGet_none _ _ hout)
  rw [hnone]

/-- Witness for the amended C6: index `5` against 2 remaining files. -/
theorem read_out_of_range_index_error_witness :
    ¬ (rawFileSet_read dir₀).length = 0 ∧
    (5 : ℤ) ∈ resolve md₀.num_projections (.single 5) ∧
    read md₀ dir₀ (Option.some (.single 5)) false [] =
      .error .indexError :=
  ⟨by decide, by decide,
   read_out_of_range_index_error md₀ dir₀ (.single 5) false [] 5
     (by decide) (by decide) (by decide)⟩

/-- C7 counterexample: on an empty projection directory,
`read_centre_slice` raises nothing: the enumerated file set is empty and
the zero-initialised `num_projections × num_pixels_h` buffer is returned
as a result. -/
theorem read_centre_slice_empty_counterexample :
    rawFileSet_centre ([] : List RawFile) = [] ∧
    read_centre_slice md₀ [] = .ok [[0], [0], [0], [0]] := by
  decide

/-- C7 (amended): `read_centre_slice` enumerates RAW files identically to
`read` (lexicographic sort, drop last), but performs no emptiness check:
with no RAW files remaining after the drop it returns the zero-initialised
buffer rather than failing. -/
theorem read_centre_slice_enumeration_and_empty :
    (∀ dir : List RawFile, rawFileSet_centre dir = rawFileSet_read dir) ∧
    (∀ (md : ScanMetadata) (dir : List RawFile),
      rawFileSet_centre dir = [] →
      read_centre_slice md dir =
        .ok (List.replicate md.num_projections
              (List.replicate md.num_pixels_h 0))) := by
  refine ⟨fun dir => rfl, fun md dir h => ?_⟩
  simp only [read_centre_slice]
  rw [h]
  rfl

/-- Witness for the amended C7 at the empty directory. -/
theorem read_centre_slice_enumeration_and_empty_witness :
    rawFileSet_centre dir₀ = rawFileSet_read dir₀ ∧
    read_centre_slice md₀ [] = .ok [[0], [0], [0], [0]] := by
  refine ⟨read_centre_slice_enumeration_and_empty.1 dir₀, ?_⟩
  rw [read_centre_slice_enumeration_and_empty.2 md₀ [] (by decide)]
  rfl

/-- C4: for a directory of at least two RAW files — each holding the
declared `num_pixels_v * num_pixels_h` samples and, per the stated
RawFileSet/num_projections parity assumption, no more files than
`num_projections + 1` — `read(angles=None)` succeeds and returns a volume
with one frame per remaining file: the leading dimension is the file count
minus one, the enumerated set is the lexicographically sorted directory
with the last (greatest) name dropped, and slot `k` holds the reshaped
contents of the `k`-th remaining file in sorted order. -/
theorem read_all_leading_dimension (md : ScanMetadata) (dir : List RawFile)
    (h2 : 2 ≤ dir.length)
    (hn : dir.length - 1 ≤ md.num_projections)
    (hsize : ∀ f ∈ dir,
      f.data.length = md.num_pixels_v * md.num_pixels_h) :
    (sortFiles dir).Perm dir ∧
    (sortFiles dir).Pairwise
      (fun a b : RawFile => lexLe a.name b.name = true) ∧
    rawFileSet_read dir = (sortFiles dir).dropLast ∧
    (rawFileSet_read dir).length = dir.length - 1 ∧
    ∃ subang, read md dir Option.none false [] =
      .ok ((rawFileSet_read dir).map
            (fun f => chunkRows md.num_pixels_h md.num_pixels_v f.data),
           subang) := by
  have hlen : (rawFileSet_read dir).length = dir.length - 1 := by
    unfold rawFileSet_read
    rw [List.length_dropLast, length_sortFiles]
  have hmem : ∀ f ∈ rawFileSet_read dir, f ∈ dir := by
    intro f hf
    exact (sortFiles_perm dir).mem_iff.1
      ((List.dropLast_sublist (sortFiles dir)).subset hf)
  have hne : ¬ (rawFileSet_read dir).length = 0 := by omega
  have hfiles : omap (pyGet (rawFileSet_read dir))
      (resolvedIndices md.num_projections (rawFileSet_read dir).length
        Option.none) = Option.some (rawFileSet_read dir) := by
    simp only [resolvedIndices]
    rw [omap_map, omap_congr (fun i _ => pyGet_ofNat (rawFileSet_read dir) i)]
    exact omap_get?_range (rawFileSet_read dir)
  have hseq : readSeq md.num_pixels_v md.num_pixels_h (rawFileSet_read dir) =
      Option.some ((rawFileSet_read dir).map
        (fun f => chunkRows md.num_pixels_h md.num_pixels_v f.data)) := by
    unfold readSeq
    apply omap_eq_map
    intro f hf
    unfold read_single_raw_file
    rw [if_pos (hsize f (hmem f hf))]
  obtain ⟨subang, hang⟩ : ∃ subang,
      omap (pyGet (angles md.num_projections))
        (resolvedIndices md.num_projections (rawFileSet_read dir).length
          Option.none) = Option.some subang := by
    apply omap_isSome
    intro i hi
    simp only [resolvedIndices] at hi
    obtain ⟨k, hk, rfl⟩ := List.mem_map.1 hi
    have hk' : k < (angles md.num_projections).length := by
      rw [length_angles]
      have := List.mem_range.1 hk
      omega
    rw [pyGet_ofNat, List.get?_eq_get hk']
    exact Option.some_ne_none _
  refine ⟨sortFiles_perm dir, sortFiles_sorted dir, rfl, hlen, subang, ?_⟩
  unfold read
  rw [if_neg hne]
  dsimp only
  rw [hfiles]
  dsimp only
  rw [if_neg Bool.false_ne_true, hseq]
  dsimp only
  rw [hang]

/-- Witness for C4: three 1-element files, 1×1 panel, 4 projections. -/
theorem read_all_leading_dimension_witness :
    2 ≤ dir₀.length ∧
    (rawFileSet_read dir₀).length = dir₀.length - 1 ∧
    (∃ subang, read md₀ dir₀ Option.none false [] =
      .ok ((rawFileSet_read dir₀).map
            (fun f => chunkRows md₀.num_pixels_h md₀.num_pixels_v f.data),
           subang)) :=
  ⟨by decide,
   (read_all_leading_dimension md₀ dir₀ (by decide) (by decide)
     (by decide)).2.2.2.1,
   (read_all_leading_dimension md₀ dir₀ (by decide) (by decide)
     (by decide)).2.2.2.2⟩

/-- C1: whenever `read` returns a result — for any selection, sequential or
parallel — the returned geometry's angle list is exactly the full angle
sequence indexed (numpy-style) by the resolved indices, element-for-element
and in the order of the indices, and it tracks the stacked data frames
index-for-index (same length, frame `k` paired with angle `k`). -/
theorem read_geometry_tracks_indices (md : ScanMetadata)
    (dir : List RawFile) (sel : Option Selection) (fread : Bool)
    (order : List ℕ) (res : List (List (List ℕ)) × List ℚ)
    (hok : read md dir sel fread order = .ok res) :
    omap (pyGet (angles md.num_projections))
      (resolvedIndices md.num_projections (rawFileSet_read dir).length
        sel) = Option.some res.2 ∧
    res.2.length =
      (resolvedIndices md.num_projections (rawFileSet_read dir).length
        sel).length ∧
    res.1.length = res.2.length := by
  unfold read at hok
  by_cases hne : (rawFileSet_read dir).length = 0
  · rw [if_pos hne] at hok; cases hok
  rw [if_neg hne] at hok
  dsimp only at hok
  cases hfl : omap (pyGet (rawFileSet_read dir))
      (resolvedIndices md.num_projections (rawFileSet_read dir).length
        sel) with
  | none => rw [hfl] at hok; cases hok
  | some fl =>
    rw [hfl] at hok
    dsimp only at hok
    cases hdata : (if fread = true then
          readPar md.num_pixels_v md.num_pixels_h fl order
        else readSeq md.num_pixels_v md.num_pixels_h fl) with
    | none => rw [hdata] at hok; cases hok
    | some frames =>
      rw [hdata] at hok
      dsimp only at hok
      cases hang : omap (pyGet (angles md.num_projections))
          (resolvedIndices md.num_projections (rawFileSet_read dir).length
            sel) with
      | none => rw [hang] at hok; cases hok
      | some sub =>
        rw [hang] at hok
        dsimp only at hok
        cases hok
        have hfl_len : fl.length =
            (resolvedIndices md.num_projections
              (rawFileSet_read dir).length sel).length := omap_length hfl
        have hframes : frames.length = fl.length := by
          cases fread
          · rw [if_neg Bool.false_ne_true] at hdata
            unfold readSeq at hdata
            exact omap_length hdata
          · rw [if_pos rfl] at hdata
            exact readPar_length hdata
        refine ⟨rfl, omap_length hang, ?_⟩
        show frames.length = sub.length
        rw [hframes, hfl_len, omap_length hang]

/-- Witness for C1: selecting index 0 from the three-file directory
returns the first remaining frame paired with the first full angle. -/
theorem read_geometry_tracks_indices_witness :
    read md₀ dir₀ (Option.some (.single 0)) false [] =
      .ok ([[[5]]], [-90]) ∧
    omap (pyGet (angles md₀.num_projections))
      (resolvedIndices md₀.num_projections (rawFileSet_read dir₀).length
        (Option.some (.single 0))) = Option.some ([-90] : List ℚ) := by
  have hok : read md₀ dir₀ (Option.some (.single 0)) false [] =
      .ok ([[[5]]], [-90]) := by
    have hang : angles 4 = [-90, 0, 90, 180] := by
      norm_num [angles, List.range_succ]
    unfold read
    rw [show md₀.num_projections = 4 from rfl, hang]
    decide
  exact ⟨hok,
    (read_geometry_tracks_indices md₀ dir₀ (Option.some (.single 0)) false
      [] ([[[5]]], [-90]) hok).1⟩

/-- joblib collects per-task results by submission slot: whatever order the
worker threads complete the submitted tasks in, the gathered list equals
the sequential map over the selected files — provided at least one task was
submitted, since `np.stack` on an empty collection raises `ValueError`. -/
theorem readPar_eq_readSeq (v h : ℕ) (files : List RawFile)
    (order : List ℕ) (hperm : order.Perm (List.range files.length))
    (hne : files ≠ []) :
    readPar v h files order = readSeq v h files := by
  have hcong : ∀ i ∈ List.range files.length,
      ((order.map (fun j =>
          (j, (files.get? j).bind (read_single_raw_file v h)))).find?
        (fun p => p.1 == i)).bind (fun p => p.2) =
      (files.get? i).bind (read_single_raw_file v h) := by
    intro i hi
    rw [find?_map_key
      (fun j => (files.get? j).bind (read_single_raw_file v h)) i order
      (hperm.mem_iff.2 hi)]
    rfl
  have hgather := (omap_congr hcong).trans
    (omap_get_bind_range (read_single_raw_file v h) files)
  unfold readPar readSeq
  dsimp only
  rw [hgather]
  cases hres : omap (read_single_raw_file v h) files with
  | none => rfl
  | some results =>
      cases results with
      | nil =>
          have hflen : files.length = 0 := by
            have := omap_length hres
            simpa using this.symm
          exact absurd (List.length_eq_zero.1 hflen) hne
      | cons r rs => rfl

/-- C9 counterexample: a selection that resolves to the empty index set —
here the tuple `(5, 5)`, whose slice over `arange(4)` is empty — makes the
parallel path raise `ValueError` (`np.stack` of an empty list, line 130),
while the sequential path returns an empty volume: parallel and sequential
reads are not the same for every selection. -/
theorem read_parallel_empty_counterexample :
    resolve md₀.num_projections (.tuple 5 5) = [] ∧
    read md₀ dir₀ (Option.some (.tuple 5 5)) true [] =
      .error .valueError ∧
    read md₀ dir₀ (Option.some (.tuple 5 5)) false [] = .ok ([], []) := by
  decide

/-- C9 (amended): for every selection whose resolved index set is
non-empty, and every completion order of the worker threads (any
permutation of the submitted tasks), `read` with the parallel flag returns
exactly what the sequential path returns — the same float32 volume and the
same subset geometry.  For an empty resolved selection the parallel path
instead fails at `np.stack` (line 130) while the sequential path returns an
empty volume. -/
theorem read_parallel_eq_sequential (md : ScanMetadata)
    (dir : List RawFile) (sel : Option Selection) (order : List ℕ)
    (hperm : ∀ fl, omap (pyGet (rawFileSet_read dir))
        (resolvedIndices md.num_projections (rawFileSet_read dir).length
          sel) = Option.some fl →
      order.Perm (List.range fl.length))
    (hsel : resolvedIndices md.num_projections (rawFileSet_read dir).length
        sel ≠ []) :
    read md dir sel true order = read md dir sel false [] := by
  unfold read
  dsimp only
  by_cases hne : (rawFileSet_read dir).length = 0
  · rw [if_pos hne, if_pos hne]
  rw [if_neg hne, if_neg hne]
  cases hfl : omap (pyGet (rawFileSet_read dir))
      (resolvedIndices md.num_projections (rawFileSet_read dir).length
        sel) with
  | none => rfl
  | some fl =>
      have hflne : fl ≠ [] := by
        intro hnil
        apply hsel
        have hlen := omap_length hfl
        rw [hnil] at hlen
        exact List.length_eq_zero.1 hlen.symm
      dsimp only
      rw [if_pos rfl, if_neg Bool.false_ne_true,
        readPar_eq_readSeq md.num_pixels_v md.num_pixels_h fl order
          (hperm fl hfl) hflne]

/-- Witness for the amended C9: two remaining files (a non-empty
selection), tasks completing in reverse order. -/
theorem read_parallel_eq_sequential_witness :
    read md₀ dir₀ Option.none true [1, 0] =
      read md₀ dir₀ Option.none false [] := by
  apply read_parallel_eq_sequential
  · intro fl hfl
    have h2 : omap (pyGet (rawFileSet_read dir₀))
        (resolvedIndices md₀.num_projections (rawFileSet_read dir₀).length
          Option.none) = Option.some (rawFileSet_read dir₀) := by decide
    rw [h2] at hfl
    cases hfl
    show List.Perm [1, 0] (List.range (rawFileSet_read dir₀).length)
    have h3 : List.range (rawFileSet_read dir₀).length = [0, 1] := by decide
    rw [h3]
    exact List.Perm.swap 0 1 []
  · decide

/-- C5: provided every enumerated file holds at least
`(num_pixels_v / 2 + 1) * num_pixels_h` elements (the input contract: each
RAW file holds `num_pixels_v × num_pixels_h` samples) and the files fit the
`num_projections` rows, `read_centre_slice` succeeds; the output is a 2-D
array of `num_projections` (= number of angles) rows of `num_pixels_h`
elements, and row `i` equals the `num_pixels_h` consecutive elements of
file `i` starting at element offset `(num_pixels_v / 2) * num_pixels_h`
(byte offset `(num_pixels_v // 2) * num_pixels_h * itemsize`), whatever the
rest of the file contains.  The trailing `float32` cast is exact on
`uint16` samples. -/
theorem read_centre_slice_rows (md : ScanMetadata) (dir : List RawFile)
    (hcount : (rawFileSet_centre dir).length ≤ md.num_projections)
    (hsize : ∀ f ∈ rawFileSet_centre dir,
      (md.num_pixels_v / 2) * md.num_pixels_h + md.num_pixels_h ≤
        f.data.length) :
    ∃ buf, read_centre_slice md dir = .ok buf ∧
      buf.length = md.num_projections ∧
      (∀ row ∈ buf, row.length = md.num_pixels_h) ∧
      (∀ k (hk : k < (rawFileSet_centre dir).length),
        buf.get? k = Option.some
          ((((rawFileSet_centre dir).get ⟨k, hk⟩).data.drop
              ((md.num_pixels_v / 2) * md.num_pixels_h)).take
            md.num_pixels_h)) := by
  obtain ⟨buf, hfill, hblen, huntouched, hrows⟩ :=
    fillRows_ok md.num_pixels_h md.num_pixels_v (rawFileSet_centre dir)
      (List.replicate md.num_projections
        (List.replicate md.num_pixels_h 0)) 0 hsize
      (by rw [List.length_replicate]; omega)
  have hblen' : buf.length = md.num_projections := by
    rw [hblen, List.length_replicate]
  refine ⟨buf, hfill, hblen', ?_, ?_⟩
  · intro row hrow
    obtain ⟨j, hj⟩ := List.mem_iff_get?.1 hrow
    have hjlt : j < buf.length := by
      by_contra hge
      rw [List.get?_eq_none.2 (by omega)] at hj
      cases hj
    by_cases hjf : j < (rawFileSet_centre dir).length
    · have hr := hrows j hjf
      rw [Nat.zero_add, hj] at hr
      have hrw : row = fileRow md.num_pixels_h md.num_pixels_v
          ((rawFileSet_centre dir).get ⟨j, hjf⟩) := by
        injection hr
      rw [hrw]
      exact length_fileRow (hsize _ (List.get_mem _ _ _))
    · have hu := huntouched j (Or.inr (by omega))
      rw [hj] at hu
      have hrepl : (List.replicate md.num_projections
          (List.replicate md.num_pixels_h 0)).get? j =
          Option.some (List.replicate md.num_pixels_h 0) := by
        rw [List.get?_eq_getElem?]
        simp only [List.getElem?_replicate]
        rw [if_pos (by omega)]
      rw [hrepl] at hu
      have hrw : row = List.replicate md.num_pixels_h 0 := by injection hu
      rw [hrw, List.length_replicate]
  · intro k hk
    have hr := hrows k hk
    rw [Nat.zero_add] at hr
    exact hr

/-- Witness for C5 on three 2×2 files with 4 declared projections. -/
theorem read_centre_slice_rows_witness :
    (rawFileSet_centre dir₁).length ≤ md₁.num_projections ∧
    ∃ buf, read_centre_slice md₁ dir₁ = .ok buf ∧
      buf.length = md₁.num_projections := by
  obtain ⟨buf, h1, h2, -, -⟩ :=
    read_centre_slice_rows md₁ dir₁ (by decide) (by decide)
  exact ⟨by decide, buf, h1, h2⟩

/-- C10: `read_centre_slice` sizes its output from metadata, not from the
directory — any returned buffer has `num_projections` rows; and when fewer
enumerated files than `num_projections` remain (each holding enough
elements for its scanline), it succeeds and every row at an index at or
beyond the file count is the untouched zero row. -/
theorem read_centre_slice_zero_padding :
    (∀ (md : ScanMetadata) (dir : List RawFile) (buf : List (List ℕ)),
      read_centre_slice md dir = .ok buf →
      buf.length = md.num_projections) ∧
    (∀ (md : ScanMetadata) (dir : List RawFile),
      (rawFileSet_centre dir).length < md.num_projections →
      (∀ f ∈ rawFileSet_centre dir,
        (md.num_pixels_v / 2) * md.num_pixels_h + md.num_pixels_h ≤
          f.data.length) →
      ∃ buf, read_centre_slice md dir = .ok buf ∧
        ∀ i, (rawFileSet_centre dir).length ≤ i → i < md.num_projections →
          buf.get? i = Option.some (List.replicate md.num_pixels_h 0)) := by
  constructor
  · intro md dir buf hok
    simp only [read_centre_slice] at hok
    rw [fillRows_length hok, List.length_replicate]
  · intro md dir hcount hsize
    obtain ⟨buf, hfill, hblen, huntouched, -⟩ :=
      fillRows_ok md.num_pixels_h md.num_pixels_v (rawFileSet_centre dir)
        (List.replicate md.num_projections
          (List.replicate md.num_pixels_h 0)) 0 hsize
        (by rw [List.length_replicate]; omega)
    refine ⟨buf, hfill, fun i hi1 hi2 => ?_⟩
    have hu := huntouched i (Or.inr (by omega))
    rw [hu, List.get?_eq_getElem?]
    simp only [List.getElem?_replicate]
    rw [if_pos hi2]

/-- Witness for C10: two remaining 1-element files against 4 declared
projections; rows 2 and 3 stay zero. -/
theorem read_centre_slice_zero_padding_witness :
    read_centre_slice md₀ dir₀ = .ok [[5], [6], [0], [0]] ∧
    ([[5], [6], [0], [0]] : List (List ℕ)).length = md₀.num_projections ∧
    (∃ buf, read_centre_slice md₀ dir₀ = .ok buf ∧
      ∀ i, (rawFileSet_centre dir₀).length ≤ i → i < md₀.num_projections →
        buf.get? i = Option.some (List.replicate md₀.num_pixels_h 0)) :=
  ⟨by decide,
   read_centre_slice_zero_padding.1 md₀ dir₀ _ (by decide),
   read_centre_slice_zero_padding.2 md₀ dir₀ (by decide) (by decide)⟩

end Diondo
